import Mathlib

/-!
Verification of the running-route video generator's rendering core.

The development shallowly embeds the Rust sources:
* `src/utils/converter.rs` — pace conversion, bounds extraction, digit padding;
* `src/generators/route_video.rs` — coordinate projection (`to_px`), the
  baseline/bar computation, the frame-compositing loop of
  `progressive_route_with_config`;
* `src/utils/creator.rs` — the frame rate handed to the video sink.

Modelling conventions:
* `f64`/`f32` values are modelled as exact rationals.  All operations the
  claims touch (min/max folds, comparisons, the linear projection formula,
  floor/round/truncate, and small integer arithmetic) are exact on the
  values that occur, so the rational model is faithful for them.
* The two IEEE infinities used as fold seeds in `get_bounds`
  (`f64::INFINITY`, `f64::NEG_INFINITY`) are modelled as the top and bottom
  elements of `WithBot (WithTop ℚ)`; `min`/`max` on that order agree with
  `f64::min`/`f64::max` on non-NaN inputs.
* Rust `String`s are modelled as `List Char`; a panic is modelled as an
  `Option`/`Except` failure.
* The OpenCV canvas collaborators (text measurement, float `Display`
  rendering) are opaque oracles (`Oracles`); raster drawing is modelled as
  an explicit list of draw operations (`DrawOp`), which is exactly the
  information the compositing loop of the source appends per iteration.
-/

namespace Runarium

/-- Rust `f64` values as used by the bounds fold: finite coordinates are exact
rationals, `⊤` is `f64::INFINITY` and `⊥` is `f64::NEG_INFINITY`. -/
abbrev F64 := WithBot (WithTop ℚ)

/-- Embeds a finite `f64` (an exact rational) into `F64`. -/
def finite (q : ℚ) : F64 := ((q : WithTop ℚ) : F64)

/-- Rust `as i32` / `f32 as u32`-style truncation toward zero of a finite
float, as an integer. -/
def rustTrunc (q : ℚ) : ℤ := if 0 ≤ q then ⌊q⌋ else -⌊-q⌋

/-- Rust `f32::round`: rounds half away from zero. -/
def rustRound (q : ℚ) : ℤ := if 0 ≤ q then ⌊q + 1/2⌋ else -⌊-q + 1/2⌋

/-- Rust `%` on floats: `a - b * (a / b).trunc`, the remainder with the sign
of the dividend. -/
def rustRem (a b : ℚ) : ℚ := a - b * (rustTrunc (a / b) : ℚ)

/-- From `src/utils/converter.rs`, `speed_to_pace`.  The produced label
`format!("{}:{:02}", minutes, seconds)` is modelled by its numeric content
`(minutes, seconds)`; `formatPace` below renders it to characters.
`speed <= 0.0` yields the canonical zero label `0:00`. -/
def speed_to_pace (speed : ℚ) : ℕ × ℕ :=
  if speed ≤ 0 then (0, 0)
  else
    let pace_seconds := 1000 / speed
    ((⌊pace_seconds / 60⌋).toNat, (rustRound (rustRem pace_seconds 60)).toNat)

/-- From `src/utils/converter.rs`, `convert_pace_to_sec`.  The source splits
the label at the first `:` and parses both sides; on the labels the pipeline
feeds it (productions of `speed_to_pace`, shape `m:ss`) this recovers exactly
the pair `(minutes, seconds)`, so on the pair model it is
`minutes * 60 + seconds`. -/
def convert_pace_to_sec (pace : ℕ × ℕ) : ℚ := (pace.1 : ℚ) * 60 + (pace.2 : ℚ)

/-- From `src/utils/converter.rs`, `get_bounds`: two folds over the point
list, each starting from `(f64::INFINITY, f64::NEG_INFINITY)`, returning
`((lat_min, lat_max), (lon_min, lon_max))`. -/
def get_bounds (points : List (ℚ × ℚ)) : (F64 × F64) × (F64 × F64) :=
  let latb := points.foldl
    (fun mm p => (min mm.1 (finite p.1), max mm.2 (finite p.1)))
    ((⊤ : F64), (⊥ : F64))
  let lonb := points.foldl
    (fun mm p => (min mm.1 (finite p.2), max mm.2 (finite p.2)))
    ((⊤ : F64), (⊥ : F64))
  (latb, lonb)

/-- Finite bounds of a non-empty point list `x :: xs`, with the same fold
structure as `get_bounds` but seeded with the head instead of the infinite
sentinels.  `get_bounds_cons` below proves that on non-empty input
`get_bounds` computes exactly these finite values. -/
def boundsQ (x : ℚ × ℚ) (xs : List (ℚ × ℚ)) : (ℚ × ℚ) × (ℚ × ℚ) :=
  (xs.foldl (fun mm p => (min mm.1 p.1, max mm.2 p.1)) (x.1, x.1),
   xs.foldl (fun mm p => (min mm.1 p.2, max mm.2 p.2)) (x.2, x.2))

/-- Normalized longitude, from the `nx` let-binding of the `to_px` closure in
`src/generators/route_video.rs`: min–max scaling with the degenerate axis
mapped to `0.5`. -/
def nxOf (lon_min lon_max lon : ℚ) : ℚ :=
  if lon_max ≠ lon_min then (lon - lon_min) / (lon_max - lon_min) else 1/2

/-- Normalized latitude, from the `ny` let-binding of the `to_px` closure. -/
def nyOf (lat_min lat_max lat : ℚ) : ℚ :=
  if lat_max ≠ lat_min then (lat - lat_min) / (lat_max - lat_min) else 1/2

/-- The `to_px` closure of `progressive_route_with_config`
(`src/generators/route_video.rs`): projects a (lat, lon) sample to a pixel.
The closure's environment contains both `width` and `height`; its body uses
only `width` — both the `x` and the `y` coordinate are multiplied by
`width as f64` before the `as i32` truncation. -/
def to_px (scale offset_x_percent offset_y_percent : ℚ) (width height : ℤ)
    (b : (ℚ × ℚ) × (ℚ × ℚ)) (lat lon : ℚ) : ℤ × ℤ :=
  let nx := nxOf b.2.1 b.2.2 lon
  let ny := nyOf b.1.1 b.1.2 lat
  (rustTrunc ((offset_x_percent + nx * scale) * (width : ℚ)),
   rustTrunc ((offset_y_percent + (1 - ny) * scale) * (width : ℚ)))

/-- Modelled from the spec (§4.2): `projected_x = (offset_x_pct +
normalized_lon·scale)·canvas_width` and `projected_y = (offset_y_pct + (1 −
normalized_lat)·scale)·canvas_width` — both axes scaled by the canvas width,
never by its height. -/
def to_px_spec (scale offset_x_percent offset_y_percent : ℚ) (width : ℤ)
    (b : (ℚ × ℚ) × (ℚ × ℚ)) (lat lon : ℚ) : ℤ × ℤ :=
  (rustTrunc ((offset_x_percent + nxOf b.2.1 b.2.2 lon * scale) * (width : ℚ)),
   rustTrunc ((offset_y_percent + (1 - nyOf b.1.1 b.1.2 lat) * scale) * (width : ℚ)))

/-- Rust `iter().min_by(|a, b| a.total_cmp(b))`: `None` on the empty list,
otherwise the minimum (on finite floats `total_cmp` agrees with the rational
order). -/
def min_by : List ℚ → Option ℚ
  | [] => none
  | x :: xs => some (xs.foldl min x)

/-- The quantized baseline `(min_val / 30.0).floor() * 30.0` of
`progressive_route_with_config`. -/
def min_denominator (min_val : ℚ) : ℚ := (⌊min_val / 30⌋ : ℚ) * 30

/-- From `src/utils/converter.rs`, `pace_percentage`: a bare division. -/
def pace_percentage (numer denum : ℚ) : ℚ := numer / denum

/-- The `while num > 0 { num /= 10; count += 1 }` loop of
`count_digits_iterative`, with an explicit fuel bound on the iteration count
(`num` itself suffices, since the loop runs at most `digits num ≤ num` times
for `num ≥ 1`). -/
def countLoop : ℕ → ℕ → ℕ
  | 0, _ => 0
  | fuel + 1, num => if num = 0 then 0 else countLoop fuel (num / 10) + 1

/-- From `src/utils/converter.rs`, `count_digits_iterative`: `0` has one
digit, otherwise the division-by-ten loop counts digits. -/
def count_digits_iterative (num : ℕ) : ℕ :=
  if num = 0 then 1 else countLoop num num

/-- Decimal digit characters of `n`, most significant first, with fuel
bounding the recursion depth (`digits n ≤ n` for `n ≥ 1`). -/
def digitsLoop : ℕ → ℕ → List Char
  | 0, _ => []
  | fuel + 1, n =>
    if n < 10 then [Nat.digitChar n]
    else digitsLoop fuel (n / 10) ++ [Nat.digitChar (n % 10)]

/-- Decimal rendering of a natural number, as Rust's `format!("{}", n)`
produces it. -/
def decimalRepr (n : ℕ) : List Char := if n = 0 then ['0'] else digitsLoop n n

/-- From `src/utils/converter.rs`, `string_space`.  The source computes
`" ".repeat(max_digits - current_digits + 3)` on `usize`; when
`current_digits > max_digits` the unsigned subtraction underflows and the
call panics, modelled by `none`. -/
def string_space (size index : ℕ) (pace : List Char) : Option (List Char) :=
  let max_digits := count_digits_iterative size
  let current_digits := count_digits_iterative index
  if current_digits ≤ max_digits then
    some (decimalRepr index
      ++ List.replicate (max_digits - current_digits + 3) (' ' : Char)
      ++ pace)
  else
    none

/-- Rendering of a pace label pair by `format!("{}:{:02}", minutes, seconds)`. -/
def formatPace (p : ℕ × ℕ) : List Char :=
  decimalRepr p.1 ++ [':'] ++
    (if p.2 < 10 then ['0'] ++ decimalRepr p.2 else decimalRepr p.2)

/-- The frame rate computed in `progressive_route_with_config` and handed to
`video_creator` (`src/utils/creator.rs`): `(pixel_points.len() / 15) as f64`,
a truncating `usize` division. -/
def fps_of (pixel_points : List (ℤ × ℤ)) : ℕ := pixel_points.length / 15

/-- One raster drawing operation, as issued through `Drawer`
(`src/utils/element_drawer.rs`).  Only the operation kind and its semantic
payload are recorded; the pixel effect is the collaborator's concern. -/
inductive DrawOp
  /-- `Drawer::text`: a string at a position. -/
  | text (s : List Char) (x y : ℤ)
  /-- `Drawer::text` on a formatted float (stride length): the number drawn. -/
  | textNum (q : ℚ) (x y : ℤ)
  /-- `Drawer::rectangle`: a filled rectangle. -/
  | rect (x y w h : ℤ)
  /-- `Drawer::line`: one route stroke on the persistent buffer. -/
  | line (p1 p2 : ℤ × ℤ)
  /-- `Drawer::point`: the current-position marker circle. -/
  | dot (p : ℤ × ℤ)
  deriving DecidableEq

/-- A raster (the persistent buffer or an ephemeral frame) as the list of
operations drawn onto it, in order, over the background image. -/
abbrev Frame := List DrawOp

/-- Number of route strokes (`Drawer::line` calls) accumulated on a raster. -/
def strokeCount (f : Frame) : ℕ :=
  f.countP (fun op => match op with | .line _ _ => true | _ => false)

/-- External canvas collaborators, kept opaque: `Drawer::text_size` (OpenCV
text measurement, returning width and height) and the `Display`/`{:.2}`
rendering of floats. -/
structure Oracles where
  measure : List Char → ℤ × ℤ
  fmtF : ℚ → List Char

/-- The fields of `RouteVideoConfig` (`src/configs/video_config.rs`) read by
the modelled code paths of `progressive_route_with_config`. -/
structure RouteVideoConfigM where
  scale : ℚ
  offset_x_percent : ℚ
  offset_y_percent : ℚ
  show_route : Bool
  show_bottom_bar : Bool
  show_lap_data : Bool
  pace_show_pace : Bool
  pace_show_distance : Bool
  lap_position : ℚ × ℚ
  lap_show_heart_rate : Bool
  lap_show_stride_length : Bool
  lap_show_pace_bars : Bool
  lap_bar_max_width : ℤ

/-- From `src/types/fit_data.rs`, `RouteData`: per-record pace labels, GPS
points and cumulative distances (all three pushed by `fit_reader`). -/
structure RouteDataM where
  paces : List (ℕ × ℕ)
  gps_points : List (ℚ × ℚ)
  distances : List ℚ

/-- From `src/types/fit_data.rs`, `LapData`.  The `enhanced_avg_speed`
entries are `speed_to_pace` labels, modelled as pairs. -/
structure LapDataM where
  avg_heart_rate : List ℕ
  enhanced_avg_speed : List (ℕ × ℕ)
  avg_step_length : List ℚ

/-- `Drawer::header` (`src/utils/element_drawer.rs`): four column labels at
fixed offsets from the anchor, 20 pixels above it. -/
def headerOps (x y : ℤ) : List DrawOp :=
  [.text ("KM   PACE").toList (x - 20) (y - 20),
   .text ("BAR").toList (x + 150) (y - 20),
   .text ("HR").toList (x + 285) (y - 20),
   .text ("LENGTH").toList (x + 320) (y - 20)]

/-- `Drawer::text_bar` (`src/utils/element_drawer.rs`): an opaque bar of
height `measured_text_height + 30` across the canvas bottom, then the pace
text left-aligned at the 20 px margin and the distance text right-aligned by
its measured width. -/
def text_barOps (measure : List Char → ℤ × ℤ) (width height : ℤ)
    (pace dist : List Char) : List DrawOp :=
  let bar_height := (measure dist).2 + 30
  [.rect 0 (height - bar_height) width bar_height,
   .text pace 20 (height - 20),
   .text dist (width - (measure dist).1 - 20) (height - 20)]

/-- One iteration of the lap-statistics loop of
`progressive_route_with_config` (lines 362–435): pace text with
`string_space` padding, optional heart-rate and stride columns at +300/+350,
optional pace bar of width `percent * bar_max_width`.  The `string_space`
result is total here because `i + 1 ≤ size_of_speeds` keeps the digit count
bounded (`string_space_correct` below); `getD` supplies the unreachable
default. -/
def lapRowOps (o : Oracles) (cfg : RouteVideoConfigM) (start_x start_y : ℤ)
    (size_of_speeds : ℕ) (min_den : ℚ) (lap : LapDataM)
    (pace_seconds : List ℚ) (i : ℕ) (pace : ℕ × ℕ) : List DrawOp :=
  let size := o.measure (formatPace pace)
  let x := start_x - Int.tdiv size.1 2
  let y := start_y + (i : ℤ) * (size.2 + 5)
  let pace_space := (string_space size_of_speeds (i + 1) (formatPace pace)).getD []
  [DrawOp.text pace_space x y]
  ++ (if cfg.lap_show_heart_rate then
        [DrawOp.text (decimalRepr (lap.avg_heart_rate.getD i 0)) (x + 300) y]
      else [])
  ++ (if cfg.lap_show_stride_length then
        [DrawOp.textNum (lap.avg_step_length.getD i 0 / 10) (x + 350) y]
      else [])
  ++ (if cfg.lap_show_pace_bars then
        let percent := pace_percentage min_den (pace_seconds.getD i 0)
        let bar_width := rustTrunc (percent * (cfg.lap_bar_max_width : ℚ))
        [DrawOp.rect (x + size.1 + 60) (y - size.2) bar_width size.2]
      else [])

/-- The lap-statistics panel drawn once onto the persistent buffer before
the frame loop (when `show_lap_data` holds): header plus one row per lap. -/
def lapPanelOps (o : Oracles) (cfg : RouteVideoConfigM) (start_x start_y : ℤ)
    (min_den : ℚ) (lap : LapDataM) (pace_seconds : List ℚ) : List DrawOp :=
  headerOps start_x start_y ++
    (lap.enhanced_avg_speed.enum.map (fun ip =>
      lapRowOps o cfg start_x start_y lap.enhanced_avg_speed.length
        min_den lap pace_seconds ip.1 ip.2)).flatten

/-- The bottom-overlay pace text `format!("Pace: {} min/km", paces[i])`. -/
def paceLine (p : ℕ × ℕ) : List Char :=
  ("Pace: ").toList ++ formatPace p ++ (" min/km").toList

/-- The bottom-overlay distance text
`format!("Dist: {:.2} km", distances[i] / 1000.0)`. -/
def distLine (o : Oracles) (d : ℚ) : List Char :=
  ("Dist: ").toList ++ o.fmtF (d / 1000) ++ (" km").toList

/-- The persistent-buffer update of iteration `i` of the frame loop
(`progressive_route_with_config`, lines 442–452): for `i > 0` with
`show_route`, one stroke from `pixel_points[i-1]` to `pixel_points[i]` is
drawn irrevocably onto the persistent buffer. -/
def stepBuffer (cfg : RouteVideoConfigM) (pixel_points : List (ℤ × ℤ))
    (buf : Frame) (i : ℕ) : Frame :=
  if cfg.show_route ∧ 0 < i then
    buf ++ [DrawOp.line (pixel_points.getD (i - 1) (0, 0)) (pixel_points.getD i (0, 0))]
  else buf

/-- The ephemeral frame emitted at iteration `i` (lines 454–489): a clone of
the persistent buffer, plus the position marker (when `show_route`), plus the
bottom overlay (when `show_bottom_bar` holds, `i` is within the pace and
distance lists, and at least one of the two texts is enabled). -/
def emitFrame (o : Oracles) (cfg : RouteVideoConfigM) (width height : ℤ)
    (pixel_points : List (ℤ × ℤ)) (paces : List (ℕ × ℕ)) (dists : List ℚ)
    (buf : Frame) (i : ℕ) : Frame :=
  let f1 := if cfg.show_route then buf ++ [DrawOp.dot (pixel_points.getD i (0, 0))] else buf
  if cfg.show_bottom_bar ∧ i < paces.length ∧ i < dists.length then
    if cfg.pace_show_pace ∨ cfg.pace_show_distance then
      let pace_text := if cfg.pace_show_pace then paceLine (paces.getD i (0, 0)) else []
      let dist_text := if cfg.pace_show_distance then distLine o (dists.getD i 0) else []
      f1 ++ text_barOps o.measure width height pace_text dist_text
    else f1
  else f1

/-- The frame loop over a list of iteration indices, threading the persistent
buffer: each index first updates the buffer, then emits one frame. -/
def compositeFrom (o : Oracles) (cfg : RouteVideoConfigM) (width height : ℤ)
    (pixel_points : List (ℤ × ℤ)) (paces : List (ℕ × ℕ)) (dists : List ℚ) :
    List ℕ → Frame → List Frame
  | [], _ => []
  | i :: rest, buf =>
    let buf2 := stepBuffer cfg pixel_points buf i
    emitFrame o cfg width height pixel_points paces dists buf2 i ::
      compositeFrom o cfg width height pixel_points paces dists rest buf2

/-- The full frame loop `for (i, point) in pixel_points.iter().enumerate()`,
started on the persistent buffer `panel` (background plus the pre-drawn lap
panel). -/
def compositeFrames (o : Oracles) (cfg : RouteVideoConfigM) (width height : ℤ)
    (pixel_points : List (ℤ × ℤ)) (paces : List (ℕ × ℕ)) (dists : List ℚ)
    (panel : Frame) : List Frame :=
  compositeFrom o cfg width height pixel_points paces dists
    (List.range pixel_points.length) panel

/-- The projection pass `points.iter().map(|&(la, lo)| to_px(la, lo))`.  The
match mirrors that the `to_px` closure is only ever evaluated on members of
`points` (a map over the empty list applies nothing), whose bounds are the
finite values `boundsQ` computes (`get_bounds_cons` below). -/
def pixelPoints (scale ox oy : ℚ) (width height : ℤ)
    (points : List (ℚ × ℚ)) : List (ℤ × ℤ) :=
  match points with
  | [] => []
  | x :: xs =>
    (x :: xs).map (fun p => to_px scale ox oy width height (boundsQ x xs) p.1 p.2)

/-- Abnormal terminations of `progressive_route_with_config` modelled by the
pure pipeline (file and encoder failures of the collaborators are outside the
model). -/
inductive RenderErr
  /-- The `.expect("Failed to find min pace")` panic when the lap list is
  empty. -/
  | noMinPace
  deriving DecidableEq

/-- The rendering pipeline of `progressive_route_with_config`
(`src/generators/route_video.rs`, lines 267–500) after the FIT file and the
background image have been read: bounds, projection, frame rate, baseline,
optional lap panel, frame loop.  Returns the frame rate handed to the sink
and the emitted frames.  There is no emptiness check on the sample
sequence anywhere in this path. -/
def renderJob (o : Oracles) (cfg : RouteVideoConfigM) (width height : ℤ)
    (route : RouteDataM) (lap : LapDataM) : Except RenderErr (ℕ × List Frame) :=
  let pixel_points := pixelPoints cfg.scale cfg.offset_x_percent
    cfg.offset_y_percent width height route.gps_points
  let fps := fps_of pixel_points
  let pace_seconds := lap.enhanced_avg_speed.map convert_pace_to_sec
  match min_by pace_seconds with
  | none => .error .noMinPace
  | some min_val =>
    let min_den := min_denominator min_val
    let start_x := rustTrunc (cfg.lap_position.1 * (width : ℚ))
    let start_y := rustTrunc (cfg.lap_position.2 * (height : ℚ))
    let panel :=
      if cfg.show_lap_data then
        lapPanelOps o cfg start_x start_y min_den lap pace_seconds
      else []
    .ok (fps, compositeFrames o cfg width height pixel_points
      route.paces route.distances panel)

/-- Empty telemetry input: no samples at all. -/
def emptyRoute : RouteDataM where
  paces := []
  gps_points := []
  distances := []

/-- Sample oracle instantiation for concrete evaluations. -/
def sampleOracles : Oracles where
  measure := fun _ => (10, 10)
  fmtF := fun _ => []

/-- Sample configuration with every visibility flag enabled. -/
def sampleConfig : RouteVideoConfigM where
  scale := 1/5
  offset_x_percent := 1/10
  offset_y_percent := 1/10
  show_route := true
  show_bottom_bar := true
  show_lap_data := false
  pace_show_pace := true
  pace_show_distance := true
  lap_position := (1/2, 9/100)
  lap_show_heart_rate := true
  lap_show_stride_length := true
  lap_show_pace_bars := true
  lap_bar_max_width := 200

/-- Sample single-lap data for concrete evaluations. -/
def sampleLap : LapDataM where
  avg_heart_rate := [150]
  enhanced_avg_speed := [(5, 0)]
  avg_step_length := [11]

/-!  Shared lemmas. -/

lemma min_denominator_le (m : ℚ) : min_denominator m ≤ m := by
  have h : ((⌊m / 30⌋ : ℚ)) ≤ m / 30 := Int.floor_le _
  have h30 : (0:ℚ) < 30 := by norm_num
  have := mul_le_mul_of_nonneg_right h (le_of_lt h30)
  rw [min_denominator]
  calc ((⌊m / 30⌋ : ℚ)) * 30 ≤ m / 30 * 30 := this
  _ = m := div_mul_cancel₀ m (by norm_num)

lemma foldl_min_le_acc (l : List ℚ) : ∀ a : ℚ, l.foldl min a ≤ a := by
  induction l with
  | nil => intro a; exact le_refl a
  | cons x xs ih =>
    intro a
    exact le_trans (ih (min a x)) (min_le_left a x)

lemma foldl_min_le_mem (l : List ℚ) : ∀ (a x : ℚ), x ∈ l → l.foldl min a ≤ x := by
  induction l with
  | nil => intro a x hx; exact absurd hx (List.not_mem_nil x)
  | cons y ys ih =>
    intro a x hx
    rcases List.mem_cons.mp hx with h | h
    · subst h
      exact le_trans (foldl_min_le_acc ys (min a x)) (min_le_right a x)
    · exact ih (min a y) x h

lemma min_by_le (l : List ℚ) (m : ℚ) (hm : min_by l = some m) :
    ∀ x ∈ l, m ≤ x := by
  cases l with
  | nil => simp [min_by] at hm
  | cons a as =>
    simp only [min_by, Option.some.injEq] at hm
    intro x hx
    rcases List.mem_cons.mp hx with h | h
    · subst h
      exact hm ▸ foldl_min_le_acc as x
    · exact hm ▸ foldl_min_le_mem as a x h

lemma boundsFold_fst_le (f : (ℚ × ℚ) → ℚ) (l : List (ℚ × ℚ)) :
    ∀ acc : F64 × F64,
      (l.foldl (fun mm p => (min mm.1 (finite (f p)), max mm.2 (finite (f p)))) acc).1 ≤ acc.1 := by
  induction l with
  | nil => intro acc; exact le_refl _
  | cons p rest ih =>
    intro acc
    rw [List.foldl_cons]
    exact le_trans (ih _) (min_le_left _ _)

lemma boundsFold_snd_ge (f : (ℚ × ℚ) → ℚ) (l : List (ℚ × ℚ)) :
    ∀ acc : F64 × F64,
      acc.2 ≤ (l.foldl (fun mm p => (min mm.1 (finite (f p)), max mm.2 (finite (f p)))) acc).2 := by
  induction l with
  | nil => intro acc; exact le_refl _
  | cons p rest ih =>
    intro acc
    rw [List.foldl_cons]
    exact le_trans (le_max_left acc.2 (finite (f p)))
      (ih (min acc.1 (finite (f p)), max acc.2 (finite (f p))))

lemma boundsFold_fst_le_mem (f : (ℚ × ℚ) → ℚ) (l : List (ℚ × ℚ)) :
    ∀ (acc : F64 × F64) (p : ℚ × ℚ), p ∈ l →
      (l.foldl (fun mm p => (min mm.1 (finite (f p)), max mm.2 (finite (f p)))) acc).1
        ≤ finite (f p) := by
  induction l with
  | nil => intro acc p hp; exact absurd hp (List.not_mem_nil p)
  | cons q rest ih =>
    intro acc p hp
    rcases List.mem_cons.mp hp with hh | hh
    · subst hh
      rw [List.foldl_cons]
      exact le_trans (boundsFold_fst_le f rest _) (min_le_right _ _)
    · rw [List.foldl_cons]
      exact ih _ p hh

lemma boundsFold_snd_ge_mem (f : (ℚ × ℚ) → ℚ) (l : List (ℚ × ℚ)) :
    ∀ (acc : F64 × F64) (p : ℚ × ℚ), p ∈ l →
      finite (f p) ≤
        (l.foldl (fun mm p => (min mm.1 (finite (f p)), max mm.2 (finite (f p)))) acc).2 := by
  induction l with
  | nil => intro acc p hp; exact absurd hp (List.not_mem_nil p)
  | cons q rest ih =>
    intro acc p hp
    rcases List.mem_cons.mp hp with hh | hh
    · subst hh
      rw [List.foldl_cons]
      exact le_trans (le_max_right acc.2 (finite (f p)))
        (boundsFold_snd_ge f rest (min acc.1 (finite (f p)), max acc.2 (finite (f p))))
    · rw [List.foldl_cons]
      exact ih _ p hh

lemma finite_min (a b : ℚ) : finite (min a b) = min (finite a) (finite b) := by
  rw [finite, finite, finite, WithTop.coe_min, WithBot.coe_min]

lemma finite_max (a b : ℚ) : finite (max a b) = max (finite a) (finite b) := by
  rw [finite, finite, finite, WithTop.coe_max, WithBot.coe_max]

lemma boundsFold_finite (f : (ℚ × ℚ) → ℚ) (l : List (ℚ × ℚ)) :
    ∀ a b : ℚ,
      l.foldl (fun mm p => (min mm.1 (finite (f p)), max mm.2 (finite (f p))))
          (finite a, finite b)
        = (finite ((l.foldl (fun mm p => (min mm.1 (f p), max mm.2 (f p))) (a, b)).1),
           finite ((l.foldl (fun mm p => (min mm.1 (f p), max mm.2 (f p))) (a, b)).2)) := by
  induction l with
  | nil => intro a b; rfl
  | cons p rest ih =>
    intro a b
    rw [List.foldl_cons, List.foldl_cons]
    have : (min (finite a) (finite (f p)), max (finite b) (finite (f p)))
        = (finite (min a (f p)), finite (max b (f p))) := by
      rw [finite_min, finite_max]
    rw [this]
    exact ih (min a (f p)) (max b (f p))

/-- Refinement: on a non-empty point list `get_bounds` produces exactly the
finite bounds of `boundsQ`, embedded into `F64`; the infinite seeds are
absorbed by the first fold step. -/
lemma get_bounds_cons (x : ℚ × ℚ) (xs : List (ℚ × ℚ)) :
    get_bounds (x :: xs) =
      ((finite (boundsQ x xs).1.1, finite (boundsQ x xs).1.2),
       (finite (boundsQ x xs).2.1, finite (boundsQ x xs).2.2)) := by
  have habs : ∀ q : ℚ, (min (⊤ : F64) (finite q), max (⊥ : F64) (finite q))
      = (finite q, finite q) := by
    intro q
    rw [min_eq_right le_top, max_eq_right bot_le]
  show (_, _) = _
  rw [List.foldl_cons, List.foldl_cons, habs x.1, habs x.2,
    boundsFold_finite (fun p => p.1) xs x.1 x.1,
    boundsFold_finite (fun p => p.2) xs x.2 x.2]
  rfl

lemma boundsQfold_const (f : (ℚ × ℚ) → ℚ) (xs : List (ℚ × ℚ)) (c : ℚ) :
    ∀ _ : (∀ p ∈ xs, f p = c),
      xs.foldl (fun mm p => (min mm.1 (f p), max mm.2 (f p))) (c, c) = (c, c) := by
  induction xs with
  | nil => intro _; rfl
  | cons q rest ih =>
    intro h
    rw [List.foldl_cons, h q (List.mem_cons_self q rest), min_self, max_self]
    exact ih (fun p hp => h p (List.mem_cons_of_mem q hp))

/-!  C4 — pace label round trip. -/

/-- C4: for every speed > 0 (so pace_seconds = 1000/speed ≥ 0), formatting
the pace as a minutes:seconds label and parsing it back recovers the
original value within one second. -/
theorem pace_label_roundtrip (speed : ℚ) (h : 0 < speed) :
    |convert_pace_to_sec (speed_to_pace speed) - 1000 / speed| ≤ 1 := by
  have hns : ¬ speed ≤ 0 := not_le.mpr h
  set ps : ℚ := 1000 / speed with hps_def
  have hps : 0 < ps := by positivity
  have hfl : (0:ℚ) ≤ ps / 60 := by positivity
  have htr : rustTrunc (ps / 60) = ⌊ps / 60⌋ := by simp [rustTrunc, hfl]
  have hr_def : rustRem ps 60 = ps - 60 * (⌊ps / 60⌋ : ℚ) := by
    rw [rustRem, htr]
  have hfloor_le : ((⌊ps / 60⌋ : ℚ)) ≤ ps / 60 := Int.floor_le _
  have hr0 : (0:ℚ) ≤ ps - 60 * (⌊ps / 60⌋ : ℚ) := by nlinarith
  have hround : rustRound (rustRem ps 60) = round (ps - 60 * (⌊ps / 60⌋ : ℚ)) := by
    rw [hr_def, rustRound, if_pos hr0, round_eq]
  have hmin0 : 0 ≤ ⌊ps / 60⌋ := Int.floor_nonneg.mpr hfl
  have hrnd0 : 0 ≤ rustRound (rustRem ps 60) := by
    rw [hround, round_eq]
    exact Int.floor_nonneg.mpr (by linarith)
  have habs := abs_sub_round (ps - 60 * (⌊ps / 60⌋ : ℚ))
  simp only [speed_to_pace, if_neg hns, convert_pace_to_sec, ← hps_def]
  have e1 : ((⌊ps / 60⌋.toNat : ℕ) : ℚ) = (⌊ps / 60⌋ : ℚ) := by
    exact_mod_cast congrArg (fun z : ℤ => (z : ℚ)) (Int.toNat_of_nonneg hmin0)
  have e2 : (((rustRound (rustRem ps 60)).toNat : ℕ) : ℚ) =
      ((rustRound (rustRem ps 60) : ℤ) : ℚ) := by
    exact_mod_cast congrArg (fun z : ℤ => (z : ℚ)) (Int.toNat_of_nonneg hrnd0)
  rw [e1, e2, hround]
  have hrw : ((⌊ps / 60⌋ : ℚ)) * 60 + ((round (ps - 60 * (⌊ps / 60⌋ : ℚ)) : ℤ) : ℚ) - ps =
      -((ps - 60 * (⌊ps / 60⌋ : ℚ)) - ((round (ps - 60 * (⌊ps / 60⌋ : ℚ)) : ℤ) : ℚ)) := by
    ring
  rw [hrw, abs_neg]
  linarith

/-- C4 witness: at speed 4 m/s the pace is 250 s, the label is 4:10, and the
parsed value differs from 250 by at most one second. -/
theorem pace_label_roundtrip_witness :
    |convert_pace_to_sec (speed_to_pace 4) - 1000 / 4| ≤ 1 :=
  pace_label_roundtrip 4 (by norm_num)

/-!  C5 — the quantized baseline. -/

/-- C5: for every non-empty list of lap pace-second values, the baseline
`floor(min/30)·30` is a multiple of 30 and is at most the minimum. -/
theorem baseline_multiple_and_le_min (pace_seconds : List ℚ) (m : ℚ)
    (hm : min_by pace_seconds = some m) :
    (∃ k : ℤ, min_denominator m = 30 * k) ∧ min_denominator m ≤ m :=
  ⟨⟨⌊m / 30⌋, by rw [min_denominator]; ring⟩, min_denominator_le m⟩

/-- C5 witness: the singleton lap list with pace 100 s has baseline 90. -/
theorem baseline_multiple_and_le_min_witness :
    (∃ k : ℤ, min_denominator 100 = 30 * k) ∧ min_denominator 100 ≤ 100 :=
  baseline_multiple_and_le_min [100] 100 rfl

/-!  C6 — bar percentages are bounded by one. -/

/-- C6: with strictly positive pace seconds, every unclamped bar percentage
`baseline / pace_seconds_i` is at most 1, and equals 1 only for a lap
attaining the minimum. -/
theorem bar_percentage_le_one (pace_seconds : List ℚ)
    (hpos : ∀ x ∈ pace_seconds, 0 < x) (m : ℚ)
    (hm : min_by pace_seconds = some m) (x : ℚ) (hx : x ∈ pace_seconds) :
    pace_percentage (min_denominator m) x ≤ 1 ∧
    (pace_percentage (min_denominator m) x = 1 → x = m) := by
  have hxpos : 0 < x := hpos x hx
  have hmx : m ≤ x := min_by_le _ _ hm x hx
  have hbm : min_denominator m ≤ m := min_denominator_le m
  constructor
  · rw [pace_percentage, div_le_one hxpos]
    linarith
  · intro h1
    rw [pace_percentage, div_eq_one_iff_eq (ne_of_gt hxpos)] at h1
    have hxm : x ≤ m := by rw [← h1]; exact hbm
    exact le_antisymm hxm hmx

/-- C6 witness: for lap paces [30, 60] the bar of the 60-second lap is
30/60 ≤ 1 and not equal to 1. -/
theorem bar_percentage_le_one_witness :
    pace_percentage (min_denominator 30) 60 ≤ 1 ∧
    (pace_percentage (min_denominator 30) 60 = 1 → (60:ℚ) = 30) :=
  bar_percentage_le_one [30, 60] (by norm_num) 30 rfl 60 (by norm_num)

/-!  C8 — the bounding box brackets every sample. -/

/-- C8: every sample of the sequence lies within the extracted bounds:
`lat_min ≤ lat ≤ lat_max` and `lon_min ≤ lon ≤ lon_max`. -/
theorem get_bounds_brackets_samples (points : List (ℚ × ℚ)) (p : ℚ × ℚ)
    (hp : p ∈ points) :
    (get_bounds points).1.1 ≤ finite p.1 ∧ finite p.1 ≤ (get_bounds points).1.2 ∧
    (get_bounds points).2.1 ≤ finite p.2 ∧ finite p.2 ≤ (get_bounds points).2.2 := by
  refine ⟨?_, ?_, ?_, ?_⟩
  · exact boundsFold_fst_le_mem (fun q => q.1) points _ p hp
  · exact boundsFold_snd_ge_mem (fun q => q.1) points _ p hp
  · exact boundsFold_fst_le_mem (fun q => q.2) points _ p hp
  · exact boundsFold_snd_ge_mem (fun q => q.2) points _ p hp

/-- C8 witness: sample (10, 20) of a three-point track lies within the
extracted bounding box. -/
theorem get_bounds_brackets_samples_witness :
    (get_bounds [((10:ℚ), (20:ℚ)), (5, 25), (15, 15)]).1.1 ≤ finite 10 ∧
    finite 10 ≤ (get_bounds [((10:ℚ), (20:ℚ)), (5, 25), (15, 15)]).1.2 ∧
    (get_bounds [((10:ℚ), (20:ℚ)), (5, 25), (15, 15)]).2.1 ≤ finite 20 ∧
    finite 20 ≤ (get_bounds [((10:ℚ), (20:ℚ)), (5, 25), (15, 15)]).2.2 :=
  get_bounds_brackets_samples [((10:ℚ), (20:ℚ)), (5, 25), (15, 15)] (10, 20)
    (by simp)

/-!  C9 — a degenerate axis normalizes to the canvas midline. -/

/-- C9: if every sample of a non-empty track shares one latitude
(respectively one longitude), the extracted min and max on that axis agree
and the normalized coordinate of every sample on that axis is 1/2, instead
of a division by zero. -/
theorem degenerate_axis_midline (x : ℚ × ℚ) (xs : List (ℚ × ℚ)) :
    (∀ c : ℚ, (∀ p ∈ x :: xs, p.1 = c) →
      (boundsQ x xs).1.1 = (boundsQ x xs).1.2 ∧
      ∀ p ∈ x :: xs, nyOf (boundsQ x xs).1.1 (boundsQ x xs).1.2 p.1 = 1/2) ∧
    (∀ c : ℚ, (∀ p ∈ x :: xs, p.2 = c) →
      (boundsQ x xs).2.1 = (boundsQ x xs).2.2 ∧
      ∀ p ∈ x :: xs, nxOf (boundsQ x xs).2.1 (boundsQ x xs).2.2 p.2 = 1/2) := by
  constructor
  · intro c hc
    have hx1 : x.1 = c := hc x (List.mem_cons_self x xs)
    have hfold : (boundsQ x xs).1 = (c, c) := by
      show xs.foldl _ (x.1, x.1) = (c, c)
      rw [hx1]
      exact boundsQfold_const (fun p => p.1) xs c
        (fun p hp => hc p (List.mem_cons_of_mem x hp))
    rw [hfold]
    exact ⟨rfl, fun p _ => by rw [nyOf, if_neg (by simp)]⟩
  · intro c hc
    have hx2 : x.2 = c := hc x (List.mem_cons_self x xs)
    have hfold : (boundsQ x xs).2 = (c, c) := by
      show xs.foldl _ (x.2, x.2) = (c, c)
      rw [hx2]
      exact boundsQfold_const (fun p => p.2) xs c
        (fun p hp => hc p (List.mem_cons_of_mem x hp))
    rw [hfold]
    exact ⟨rfl, fun p _ => by rw [nxOf, if_neg (by simp)]⟩

/-- C9 witness: the two-point track [(7, 1), (7, 2)] shares latitude 7; its
latitude bounds coincide and both samples normalize to 1/2 on that axis. -/
theorem degenerate_axis_midline_witness :
    (boundsQ ((7:ℚ), (1:ℚ)) [(7, 2)]).1.1 = (boundsQ ((7:ℚ), (1:ℚ)) [(7, 2)]).1.2 ∧
    ∀ p ∈ [((7:ℚ), (1:ℚ)), (7, 2)],
      nyOf (boundsQ ((7:ℚ), (1:ℚ)) [(7, 2)]).1.1
        (boundsQ ((7:ℚ), (1:ℚ)) [(7, 2)]).1.2 p.1 = 1/2 :=
  (degenerate_axis_midline ((7:ℚ), (1:ℚ)) [(7, 2)]).1 7 (by
    intro p hp
    rcases List.mem_cons.mp hp with h | h
    · rw [h]
    · simp at h
      rw [h])

/-!  C3 — both projection axes are scaled by the canvas width. -/

/-- C3: the projected pixel equals the spec formula that multiplies both the
x and y axis by the canvas width, and the projection is independent of the
canvas height. -/
theorem to_px_scales_both_axes_by_width (scale ox oy : ℚ) (width height : ℤ)
    (b : (ℚ × ℚ) × (ℚ × ℚ)) (lat lon : ℚ) :
    to_px scale ox oy width height b lat lon = to_px_spec scale ox oy width b lat lon ∧
    ∀ height2 : ℤ,
      to_px scale ox oy width height b lat lon =
        to_px scale ox oy width height2 b lat lon :=
  ⟨rfl, fun _ => rfl⟩

/-!  Frame-compositor lemmas. -/

lemma strokeCount_append (a b : Frame) :
    strokeCount (a ++ b) = strokeCount a + strokeCount b := by
  rw [strokeCount, strokeCount, strokeCount, List.countP_append]

lemma strokeCount_text_barOps (measure : List Char → ℤ × ℤ) (w h : ℤ)
    (pace dist : List Char) :
    strokeCount (text_barOps measure w h pace dist) = 0 := by
  rw [text_barOps]
  rfl

lemma strokeCount_emitFrame (o : Oracles) (cfg : RouteVideoConfigM) (w h : ℤ)
    (pts : List (ℤ × ℤ)) (paces : List (ℕ × ℕ)) (dists : List ℚ)
    (buf : Frame) (i : ℕ) :
    strokeCount (emitFrame o cfg w h pts paces dists buf i) = strokeCount buf := by
  have hdot : ∀ p, strokeCount [DrawOp.dot p] = 0 := fun p => rfl
  rw [emitFrame]
  by_cases h1 : cfg.show_route = true <;>
    by_cases h2 : cfg.show_bottom_bar = true ∧ i < paces.length ∧ i < dists.length <;>
      by_cases h3 : cfg.pace_show_pace = true ∨ cfg.pace_show_distance = true <;>
        simp only [h1, h2, h3, if_true, if_false, if_pos, if_neg, not_false_iff,
          ite_true, ite_false, eq_self_iff_true] <;>
        simp [h1, h2, h3, strokeCount_append, strokeCount_text_barOps, hdot,
          strokeCount, text_barOps, List.countP_cons, List.countP_nil, List.countP_append]

lemma strokeCount_stepBuffer (cfg : RouteVideoConfigM) (pts : List (ℤ × ℤ))
    (buf : Frame) (i : ℕ) :
    strokeCount (stepBuffer cfg pts buf i) =
      strokeCount buf + (if cfg.show_route = true ∧ 0 < i then 1 else 0) := by
  rw [stepBuffer]
  by_cases h : cfg.show_route = true ∧ 0 < i
  · rw [if_pos h, if_pos h, strokeCount_append]
    rfl
  · rw [if_neg h, if_neg h]
    rfl

lemma strokeCount_flatten_zero :
    ∀ ls : List (List DrawOp), (∀ l ∈ ls, strokeCount l = 0) →
      strokeCount ls.flatten = 0 := by
  intro ls
  induction ls with
  | nil => intro _; rfl
  | cons l rest ih =>
    intro h
    rw [List.flatten_cons, strokeCount_append,
      h l (List.mem_cons_self l rest),
      ih (fun r hr => h r (List.mem_cons_of_mem l hr))]

lemma strokeCount_lapRowOps (o : Oracles) (cfg : RouteVideoConfigM)
    (sx sy : ℤ) (n : ℕ) (md : ℚ) (lap : LapDataM) (ps : List ℚ) (i : ℕ)
    (p : ℕ × ℕ) :
    strokeCount (lapRowOps o cfg sx sy n md lap ps i p) = 0 := by
  rw [lapRowOps]
  by_cases h1 : cfg.lap_show_heart_rate = true <;>
    by_cases h2 : cfg.lap_show_stride_length = true <;>
      by_cases h3 : cfg.lap_show_pace_bars = true <;>
        simp [h1, h2, h3, strokeCount, List.countP_append, List.countP_cons]

/-- The lap panel drawn before the frame loop contains no route stroke, so
the compositor's start buffer starts with stroke count zero. -/
lemma strokeCount_lapPanelOps (o : Oracles) (cfg : RouteVideoConfigM)
    (sx sy : ℤ) (md : ℚ) (lap : LapDataM) (ps : List ℚ) :
    strokeCount (lapPanelOps o cfg sx sy md lap ps) = 0 := by
  rw [lapPanelOps, strokeCount_append]
  rw [show strokeCount (headerOps sx sy) = 0 from rfl]
  rw [strokeCount_flatten_zero _ (by
    intro l hl
    rcases List.mem_map.mp hl with ⟨ip, _, hip⟩
    rw [← hip]
    exact strokeCount_lapRowOps o cfg sx sy lap.enhanced_avg_speed.length
      md lap ps ip.1 ip.2)]

lemma compositeFrom_length (o : Oracles) (cfg : RouteVideoConfigM) (w h : ℤ)
    (pts : List (ℤ × ℤ)) (paces : List (ℕ × ℕ)) (dists : List ℚ) :
    ∀ (idxs : List ℕ) (buf : Frame),
      (compositeFrom o cfg w h pts paces dists idxs buf).length = idxs.length := by
  intro idxs
  induction idxs with
  | nil => intro buf; rfl
  | cons i rest ih =>
    intro buf
    rw [compositeFrom, List.length_cons, ih]
    rfl

lemma compositeFrom_strokes_pos (o : Oracles) (cfg : RouteVideoConfigM) (w h : ℤ)
    (pts : List (ℤ × ℤ)) (paces : List (ℕ × ℕ)) (dists : List ℚ)
    (hroute : cfg.show_route = true) :
    ∀ (idxs : List ℕ) (buf : Frame), (∀ i ∈ idxs, 0 < i) →
      ∀ (k : ℕ) (hk : k < (compositeFrom o cfg w h pts paces dists idxs buf).length),
        strokeCount ((compositeFrom o cfg w h pts paces dists idxs buf).get ⟨k, hk⟩) =
          strokeCount buf + (k + 1) := by
  intro idxs
  induction idxs with
  | nil =>
    intro buf _ k hk
    rw [compositeFrom] at hk
    exact absurd hk (by simp)
  | cons i rest ih =>
    intro buf hall k hk
    have hi : 0 < i := hall i (List.mem_cons_self i rest)
    have hbuf2 : strokeCount (stepBuffer cfg pts buf i) = strokeCount buf + 1 := by
      rw [strokeCount_stepBuffer, if_pos ⟨hroute, hi⟩]
    cases k with
    | zero =>
      show strokeCount (emitFrame o cfg w h pts paces dists
        (stepBuffer cfg pts buf i) i) = strokeCount buf + 1
      rw [strokeCount_emitFrame, hbuf2]
    | succ k =>
      have hk2 : k < (compositeFrom o cfg w h pts paces dists rest
          (stepBuffer cfg pts buf i)).length := by
        have := hk
        rw [compositeFrom, List.length_cons] at this
        omega
      show strokeCount ((compositeFrom o cfg w h pts paces dists rest
        (stepBuffer cfg pts buf i)).get ⟨k, hk2⟩) = strokeCount buf + (k + 1 + 1)
      rw [ih (stepBuffer cfg pts buf i)
        (fun j hj => hall j (List.mem_cons_of_mem i hj)) k hk2, hbuf2]
      omega

/-!  C2 — the compositor emits N frames with K−1 strokes in the K-th. -/

/-- C2: for N pixel points the frame loop emits exactly N frames; the frame
of index k carries exactly k accumulated strokes (so the K-th emitted frame,
K = k+1, carries K−1); the frame of index 0 is the panel buffer plus the
position marker and the bottom overlay, with no stroke. -/
theorem compositor_emits_n_frames_with_incremental_strokes (o : Oracles)
    (cfg : RouteVideoConfigM) (w h : ℤ) (pts : List (ℤ × ℤ))
    (paces : List (ℕ × ℕ)) (dists : List ℚ) (panel : Frame)
    (hroute : cfg.show_route = true) (hbar : cfg.show_bottom_bar = true)
    (hpace : cfg.pace_show_pace = true) (hpanel : strokeCount panel = 0)
    (hpl : 0 < paces.length) (hdl : 0 < dists.length) :
    (compositeFrames o cfg w h pts paces dists panel).length = pts.length ∧
    (∀ (k : ℕ) (hk : k < (compositeFrames o cfg w h pts paces dists panel).length),
      strokeCount ((compositeFrames o cfg w h pts paces dists panel).get ⟨k, hk⟩) = k) ∧
    (∀ hn : 0 < (compositeFrames o cfg w h pts paces dists panel).length,
      (compositeFrames o cfg w h pts paces dists panel).get ⟨0, hn⟩ =
        panel ++ [DrawOp.dot (pts.getD 0 (0, 0))] ++
          text_barOps o.measure w h (paceLine (paces.getD 0 (0, 0)))
            (if cfg.pace_show_distance = true then distLine o (dists.getD 0 0) else [])) := by
  have hlen : (compositeFrames o cfg w h pts paces dists panel).length = pts.length := by
    rw [compositeFrames, compositeFrom_length, List.length_range]
  refine ⟨hlen, ?_, ?_⟩
  · intro k hk
    have hpts : 0 < pts.length := lt_of_le_of_lt (Nat.zero_le k) (hlen ▸ hk)
    obtain ⟨n, hn⟩ : ∃ n, pts.length = n + 1 :=
      ⟨pts.length - 1, by omega⟩
    have hrange : List.range pts.length = 0 :: (List.range n).map Nat.succ := by
      rw [hn, List.range_succ_eq_map]
    have hstep0 : stepBuffer cfg pts panel 0 = panel := by
      rw [stepBuffer, if_neg (by simp)]
    have hframes : compositeFrames o cfg w h pts paces dists panel =
        emitFrame o cfg w h pts paces dists panel 0 ::
          compositeFrom o cfg w h pts paces dists ((List.range n).map Nat.succ) panel := by
      rw [compositeFrames, hrange, compositeFrom, hstep0]
    cases k with
    | zero =>
      have h0 : (compositeFrames o cfg w h pts paces dists panel).get ⟨0, hk⟩ =
          emitFrame o cfg w h pts paces dists panel 0 := by
        rw [List.get_of_eq hframes]
        rfl
      rw [h0, strokeCount_emitFrame, hpanel]
    | succ k =>
      have hk2 : k < (compositeFrom o cfg w h pts paces dists
          ((List.range n).map Nat.succ) panel).length := by
        have := hk
        rw [hlen, hn] at this
        rw [compositeFrom_length, List.length_map, List.length_range]
        omega
      have hgs : (compositeFrames o cfg w h pts paces dists panel).get ⟨k + 1, hk⟩ =
          (compositeFrom o cfg w h pts paces dists
            ((List.range n).map Nat.succ) panel).get ⟨k, hk2⟩ := by
        rw [List.get_of_eq hframes]
        rfl
      rw [hgs, compositeFrom_strokes_pos o cfg w h pts paces dists hroute _ panel
        (by
          intro j hj
          rcases List.mem_map.mp hj with ⟨j0, _, hj0⟩
          omega) k hk2, hpanel]
      omega
  · intro hn
    have hpts : 0 < pts.length := hlen ▸ hn
    obtain ⟨n, hnn⟩ : ∃ n, pts.length = n + 1 := ⟨pts.length - 1, by omega⟩
    have hrange : List.range pts.length = 0 :: (List.range n).map Nat.succ := by
      rw [hnn, List.range_succ_eq_map]
    have hstep0 : stepBuffer cfg pts panel 0 = panel := by
      rw [stepBuffer, if_neg (by simp)]
    have hframes : compositeFrames o cfg w h pts paces dists panel =
        emitFrame o cfg w h pts paces dists panel 0 ::
          compositeFrom o cfg w h pts paces dists ((List.range n).map Nat.succ) panel := by
      rw [compositeFrames, hrange, compositeFrom, hstep0]
    have h0 : (compositeFrames o cfg w h pts paces dists panel).get ⟨0, hn⟩ =
        emitFrame o cfg w h pts paces dists panel 0 := by
      rw [List.get_of_eq hframes]
      rfl
    rw [h0, emitFrame]
    simp only [hroute, if_true, ite_true]
    rw [if_pos ⟨hbar, hpl, hdl⟩, if_pos (Or.inl hpace)]
    simp only [hpace, ite_true]

/-- C2 witness: a two-point track under the all-flags-on configuration gives
two frames, k strokes in frame k, and frame 0 = panel + marker + overlay. -/
theorem compositor_emits_n_frames_witness :
    (compositeFrames sampleOracles sampleConfig 1080 607 [(1, 2), (3, 4)]
      [(5, 0), (6, 1)] [1000, 2000] []).length = ([(1, 2), (3, 4)] : List (ℤ × ℤ)).length ∧
    (∀ (k : ℕ) (hk : k < (compositeFrames sampleOracles sampleConfig 1080 607 [(1, 2), (3, 4)]
        [(5, 0), (6, 1)] [1000, 2000] []).length),
      strokeCount ((compositeFrames sampleOracles sampleConfig 1080 607 [(1, 2), (3, 4)]
        [(5, 0), (6, 1)] [1000, 2000] []).get ⟨k, hk⟩) = k) ∧
    (∀ hn : 0 < (compositeFrames sampleOracles sampleConfig 1080 607 [(1, 2), (3, 4)]
        [(5, 0), (6, 1)] [1000, 2000] []).length,
      (compositeFrames sampleOracles sampleConfig 1080 607 [(1, 2), (3, 4)]
        [(5, 0), (6, 1)] [1000, 2000] []).get ⟨0, hn⟩ =
        [] ++ [DrawOp.dot (([(1, 2), (3, 4)] : List (ℤ × ℤ)).getD 0 (0, 0))] ++
          text_barOps sampleOracles.measure 1080 607
            (paceLine (([(5, 0), (6, 1)] : List (ℕ × ℕ)).getD 0 (0, 0)))
            (if sampleConfig.pace_show_distance = true
              then distLine sampleOracles (([1000, 2000] : List ℚ).getD 0 0) else [])) :=
  compositor_emits_n_frames_with_incremental_strokes sampleOracles sampleConfig
    1080 607 [(1, 2), (3, 4)] [(5, 0), (6, 1)] [1000, 2000] []
    rfl rfl rfl rfl (by decide) (by decide)

/-!  C7 — the frame rate is the truncating division point_count / 15. -/

lemma pixelPoints_length (scale ox oy : ℚ) (w h : ℤ) (pts : List (ℚ × ℚ)) :
    (pixelPoints scale ox oy w h pts).length = pts.length := by
  cases pts with
  | nil => rfl
  | cons x xs => simp [pixelPoints]

/-- C7: every successful render hands the sink the frame rate
`point_count / 15` (truncating integer division); any track with fewer than
15 points yields rate 0. -/
theorem fps_is_point_count_div_15 (o : Oracles) (cfg : RouteVideoConfigM)
    (w h : ℤ) (route : RouteDataM) (lap : LapDataM) (fps : ℕ)
    (frames : List Frame)
    (hok : renderJob o cfg w h route lap = .ok (fps, frames)) :
    fps = route.gps_points.length / 15 ∧
    (route.gps_points.length < 15 → fps = 0) := by
  have hfe : fps = fps_of (pixelPoints cfg.scale cfg.offset_x_percent
      cfg.offset_y_percent w h route.gps_points) := by
    simp only [renderJob] at hok
    cases hmb : min_by (lap.enhanced_avg_speed.map convert_pace_to_sec) with
    | none =>
      rw [hmb] at hok
      exact absurd hok (by simp)
    | some mv =>
      rw [hmb] at hok
      simp only [Except.ok.injEq, Prod.mk.injEq] at hok
      exact hok.1.symm
  constructor
  · rw [hfe, fps_of, pixelPoints_length]
  · intro hlt
    rw [hfe, fps_of, pixelPoints_length]
    exact Nat.div_eq_of_lt hlt

/-- C7 witness: the empty track renders successfully with frame rate 0. -/
theorem fps_is_point_count_div_15_witness :
    (0 : ℕ) = emptyRoute.gps_points.length / 15 ∧
    (emptyRoute.gps_points.length < 15 → (0 : ℕ) = 0) :=
  fps_is_point_count_div_15 sampleOracles sampleConfig 1080 607 emptyRoute
    sampleLap 0 [] rfl

/-!  C1 — an empty telemetry sequence is not rejected. -/

/-- C1 counterexample: on the empty sample sequence `get_bounds` yields the
non-finite sentinel bounds (+∞ minima, −∞ maxima) rather than reporting an
error, and the render job completes with `.ok` — it is not rejected with an
input error before projection. -/
theorem empty_telemetry_rejected_counterexample :
    get_bounds [] = (((⊤ : F64), (⊥ : F64)), ((⊤ : F64), (⊥ : F64))) ∧
    renderJob sampleOracles sampleConfig 1080 607 emptyRoute sampleLap =
      .ok (0, []) :=
  ⟨rfl, rfl⟩

/-- C1 (amended): for empty telemetry no error is raised: bounds extraction
returns the non-finite sentinels and the job proceeds past projection,
succeeding with frame rate 0 and zero frames (provided the independent lap
list is non-empty, whose emptiness would panic for an unrelated reason). -/
theorem empty_telemetry_proceeds (o : Oracles) (cfg : RouteVideoConfigM)
    (width height : ℤ) (paces : List (ℕ × ℕ)) (dists : List ℚ)
    (lap : LapDataM) (hlap : lap.enhanced_avg_speed ≠ []) :
    get_bounds [] = (((⊤ : F64), (⊥ : F64)), ((⊤ : F64), (⊥ : F64))) ∧
    renderJob o cfg width height ⟨paces, [], dists⟩ lap = .ok (0, []) := by
  refine ⟨rfl, ?_⟩
  obtain ⟨a, as, hl⟩ : ∃ a as, lap.enhanced_avg_speed = a :: as := by
    cases hll : lap.enhanced_avg_speed with
    | nil => exact absurd hll hlap
    | cons a as => exact ⟨a, as, rfl⟩
  simp only [renderJob, hl,
    show min_by (List.map convert_pace_to_sec (a :: as)) =
        some ((List.map convert_pace_to_sec as).foldl min (convert_pace_to_sec a))
      from rfl,
    show pixelPoints cfg.scale cfg.offset_x_percent cfg.offset_y_percent width height
        ([] : List (ℚ × ℚ)) = [] from rfl,
    show fps_of ([] : List (ℤ × ℤ)) = 0 from rfl,
    show ∀ panel : Frame, compositeFrames o cfg width height [] paces dists panel = []
      from fun _ => rfl]

/-- C1 witness for the amended statement, at a concrete non-empty lap list. -/
theorem empty_telemetry_proceeds_witness :
    get_bounds [] = (((⊤ : F64), (⊥ : F64)), ((⊤ : F64), (⊥ : F64))) ∧
    renderJob sampleOracles sampleConfig 800 600 ⟨[], [], []⟩ sampleLap =
      .ok (0, []) :=
  empty_telemetry_proceeds sampleOracles sampleConfig 800 600 [] [] sampleLap
    (by simp [sampleLap])

/-!  C10 — string_space padding, fixed pace column, underflow panic. -/

lemma digitsLoop_length (fuel : ℕ) : ∀ n : ℕ, 1 ≤ n →
    (digitsLoop fuel n).length = countLoop fuel n := by
  induction fuel with
  | zero => intro n _; rfl
  | succ fuel ih =>
    intro n hn
    have hne : ¬ n = 0 := by omega
    simp only [digitsLoop, countLoop]
    rw [if_neg hne]
    by_cases h10 : n < 10
    · rw [if_pos h10]
      have hz : n / 10 = 0 := Nat.div_eq_of_lt h10
      rw [hz]
      have hc0 : countLoop fuel 0 = 0 := by
        cases fuel with
        | zero => rfl
        | succ f => simp [countLoop]
      rw [hc0]
      rfl
    · rw [if_neg h10, List.length_append,
        ih (n / 10) ((Nat.one_le_div_iff (by norm_num)).mpr (by omega))]
      rfl

lemma decimalRepr_length (n : ℕ) :
    (decimalRepr n).length = count_digits_iterative n := by
  by_cases h : n = 0
  · subst h; rfl
  · rw [decimalRepr, count_digits_iterative, if_neg h, if_neg h]
    exact digitsLoop_length n n (by omega)

/-- C10: when the index has at most as many decimal digits as the set size,
`string_space` is total and returns the index, then
`digits(size) − digits(index) + 3` spaces, then the pace; every produced
string has the pace starting at the fixed column `digits(size) + 3`.  When
the index has more digits than the size, the unsigned subtraction underflows
and the call panics (`none`). -/
theorem string_space_correct (size index : ℕ) (pace : List Char) :
    (count_digits_iterative index ≤ count_digits_iterative size →
      string_space size index pace =
        some (decimalRepr index ++
          List.replicate
            (count_digits_iterative size - count_digits_iterative index + 3)
            (' ' : Char) ++ pace) ∧
      ∀ out : List Char, string_space size index pace = some out →
        out.length = count_digits_iterative size + 3 + pace.length ∧
        out.drop (count_digits_iterative size + 3) = pace) ∧
    (count_digits_iterative size < count_digits_iterative index →
      string_space size index pace = none) := by
  constructor
  · intro hle
    have heq : string_space size index pace =
        some (decimalRepr index ++
          List.replicate
            (count_digits_iterative size - count_digits_iterative index + 3)
            (' ' : Char) ++ pace) := by
      simp only [string_space]
      rw [if_pos hle]
    refine ⟨heq, ?_⟩
    intro out hout
    rw [heq, Option.some.injEq] at hout
    subst hout
    have hpre : (decimalRepr index ++
        List.replicate
          (count_digits_iterative size - count_digits_iterative index + 3)
          (' ' : Char)).length = count_digits_iterative size + 3 := by
      rw [List.length_append, decimalRepr_length, List.length_replicate]
      omega
    constructor
    · rw [List.length_append, hpre]
    · rw [← hpre]
      exact List.drop_left _ _
  · intro hlt
    simp only [string_space]
    rw [if_neg (by omega)]

/-- C10 witness: in a set of size 100 (three digits), index 1 is padded with
3 − 1 + 3 = 5 spaces before its pace text. -/
theorem string_space_correct_witness :
    string_space 100 1 [('5' : Char), ':', '0', '0'] =
      some (decimalRepr 1 ++
        List.replicate
          (count_digits_iterative 100 - count_digits_iterative 1 + 3)
          (' ' : Char) ++ [('5' : Char), ':', '0', '0']) :=
  ((string_space_correct 100 1 [('5' : Char), ':', '0', '0']).1 (by decide)).1

end Runarium
